import Mathlib

/-!
# Verification of the Amundsen Sea Low (ASL) detection core

A shallow embedding of the `asli` package's core computation: grids of
mean-sea-level pressure, the land-sea mask, sector windowing with longitude
normalization, minimum-finding with contour-closure testing, metric
computation, the per-timestep orchestrator, the parallel execution layer,
and the CSV output contract (the latter embedded from
`src/asli/templates/asli_data.csv.template`).

The Python source of the algorithm itself is not part of the source tree
(only its build metadata, the CSV template and a calling notebook are), so
the algorithmic definitions below are modelled from the specification, as
noted on each definition.  Pressure values are rationals (`ℚ`); a missing
value (NaN in the original) is `Option.none`.
-/

namespace ASLI

/-- A pressure field for one time step: rows indexed by latitude, columns by
longitude; `none` models NaN. -/
abbrev Field := List (List (Option ℚ))

/-- The land-sea mask: `true` where a cell is ocean-eligible. -/
abbrev MaskM := List (List Bool)

/-- Modelled from the spec: the Grid data model (§3) — a 2-D array of scalar
pressure values indexed by 1-D latitude and longitude coordinate arrays.
The Python implementation (an xarray `DataArray` in the missing `asli`
module) is not in the source tree. -/
structure Grid where
  lats : List ℚ
  lons : List ℚ
  vals : Field

/-- Value of a cell, `none` when the cell is NaN or out of range. -/
def cellVal (f : Field) (i j : ℕ) : Option ℚ :=
  (f.getD i []).getD j none

/-- Mask bit of a cell, `false` when out of range. -/
def cellMask (m : MaskM) (i j : ℕ) : Bool :=
  (m.getD i []).getD j false

/-- A field is entirely missing: every stored value is NaN (an empty field
also qualifies). -/
def allNaN (f : Field) : Bool :=
  f.all fun row => row.all fun v => v.isNone

/-- A mask that excludes every cell (an empty mask also qualifies). -/
def allMasked (m : MaskM) : Bool :=
  m.all fun row => row.all fun b => !b

/-! ## Sector windowing (spec §4.2) -/

/-- Modelled from the spec: canonicalize a longitude to the 0–360 convention
(design note §9: a single normalization step before windowing).  The Python
code doing this is not in the source tree. -/
def normLon (x : ℚ) : ℚ := x - 360 * ⌊x / 360⌋

/-- Whether a longitude lies in the (inclusive) sector range `lo..hi`, all
three normalized first; a wrapped range (normalized `lo` above normalized
`hi`) selects the complement interval crossing the wrap point. -/
def lonInSector (lo hi x : ℚ) : Bool :=
  let a := normLon x
  let l := normLon lo
  let h := normLon hi
  if l ≤ h then decide (l ≤ a) && decide (a ≤ h)
  else decide (l ≤ a) || decide (a ≤ h)

/-- Whether a latitude lies in the (inclusive) range `lo..hi`. -/
def latInSector (lo hi x : ℚ) : Bool :=
  decide (lo ≤ x) && decide (x ≤ hi)

/-- Indices (from `i`) of coordinates satisfying the predicate. -/
def keptIdxFrom (p : ℚ → Bool) (i : ℕ) : List ℚ → List ℕ
  | [] => []
  | c :: cs => (if p c then [i] else []) ++ keptIdxFrom p (i + 1) cs

/-- Indices of coordinates satisfying the predicate. -/
def keptIdx (p : ℚ → Bool) (cs : List ℚ) : List ℕ := keptIdxFrom p 0 cs

/-- A sector window: the sliced coordinates, values and mask of a bounding
box (spec §3, "Sector Window"). -/
structure Window where
  lats : List ℚ
  lons : List ℚ
  vals : Field
  mask : MaskM
  deriving DecidableEq

/-- Modelled from the spec: slice a grid and mask to the (inclusive)
bounding box, handling longitude wrap-around by normalization (§4.2).  The
Python slicing code is not in the source tree. -/
def windowOf (g : Grid) (m : MaskM) (lon0 lon1 lat0 lat1 : ℚ) : Window :=
  { lats := (keptIdx (latInSector lat0 lat1) g.lats).map fun i => g.lats.getD i 0
    lons := (keptIdx (lonInSector lon0 lon1) g.lons).map fun j => g.lons.getD j 0
    vals := (keptIdx (latInSector lat0 lat1) g.lats).map fun i =>
      (keptIdx (lonInSector lon0 lon1) g.lons).map fun j => cellVal g.vals i j
    mask := (keptIdx (latInSector lat0 lat1) g.lats).map fun i =>
      (keptIdx (lonInSector lon0 lon1) g.lons).map fun j => cellMask m i j }

/-! ## Minimum-finding (spec §4.3, steps 1 and 4) -/

/-- An eligible cell: row index, column index, pressure value. -/
abbrev Cell := ℕ × ℕ × ℚ

/-- The single eligible-cell candidate of one matrix entry. -/
def entryCell (i j : ℕ) : Option ℚ → Bool → List Cell
  | some x, true => [(i, j, x)]
  | _, _ => []

/-- Eligible cells of one row (row index `i`, column index starting at `j`):
cells that are masked-in and not NaN, as `(i, j, value)` triples in
increasing column order. -/
def rowCellsFrom (i : ℕ) : ℕ → List (Option ℚ) → List Bool → List Cell
  | _, [], _ => []
  | _, _ :: _, [] => []
  | j, v :: vs, b :: bs => entryCell i j v b ++ rowCellsFrom i (j + 1) vs bs

/-- Eligible cells of all rows from row index `i`, in row-major
(latitude-then-longitude) order. -/
def cellsFrom : ℕ → Field → MaskM → List Cell
  | _, [], _ => []
  | _, _ :: _, [] => []
  | i, r :: rs, mr :: mrs => rowCellsFrom i 0 r mr ++ cellsFrom (i + 1) rs mrs

/-- All ocean-eligible, non-NaN cells of a window in row-major order. -/
def eligibleCells (w : Window) : List Cell := cellsFrom 0 w.vals w.mask

/-- The fold step of minimum selection: keep the incumbent unless the new
cell's pressure is strictly smaller. -/
def minStep (b y : Cell) : Cell := if y.2.2 < b.2.2 then y else b

/-- Modelled from the spec: locate the minimum-pressure eligible cell
(§4.3 step 1), keeping the first cell in row-major order on ties
(§4.3 step 4); `none` when no cell is eligible.  The Python `argmin` code is
not in the source tree. -/
def pickMin : List Cell → Option Cell
  | [] => none
  | c :: cs => some (cs.foldl minStep c)

/-! ## Contour closure (spec §4.3 step 2)

A candidate low is closed when some isobar at a level at least the contour
step above the candidate's pressure encircles it inside the wider window.
Equivalently (and this is how it is modelled here): the 4-connected region
of cells with pressure strictly below `candidate pressure + step` that
contains the candidate does not touch the wider window's boundary.  Since
that region only grows with the contour level, the lowest admissible level
decides the existence of such an isobar. -/

/-- The 4-neighbourhood of a cell. -/
def nbrs (c : ℕ × ℕ) : List (ℕ × ℕ) :=
  [(c.1 + 1, c.2), (c.1, c.2 + 1)] ++
    (if 0 < c.1 then [(c.1 - 1, c.2)] else []) ++
    (if 0 < c.2 then [(c.1, c.2 - 1)] else [])

/-- Whether a cell's value is present and strictly below the level `L`. -/
def belowLevel (f : Field) (L : ℚ) (c : ℕ × ℕ) : Bool :=
  match cellVal f c.1 c.2 with
  | some v => decide (v < L)
  | none => false

/-- One step of region growing: add all neighbours satisfying `p`. -/
def expandOnce (p : ℕ × ℕ → Bool) (s : List (ℕ × ℕ)) : List (ℕ × ℕ) :=
  (s ++ (s.flatMap nbrs).filter p).dedup

/-- Region growing from `c` with the given fuel. -/
def reachBelow (p : ℕ × ℕ → Bool) (c : ℕ × ℕ) : ℕ → List (ℕ × ℕ)
  | 0 => [c]
  | n + 1 => expandOnce p (reachBelow p c n)

/-- Whether a cell lies on the boundary of an `nr × nc` window. -/
def onBoundary (nr nc : ℕ) (c : ℕ × ℕ) : Bool :=
  decide (c.1 = 0) || decide (c.2 = 0) ||
    decide (c.1 = nr - 1) || decide (c.2 = nc - 1)

/-- Modelled from the spec: the contour-closure test (§4.3 step 2) — the
sub-level region of `L` containing `c` must not touch the window boundary.
The Python contour code (scikit-image based) is not in the source tree. -/
def hasClosedContour (f : Field) (c : ℕ × ℕ) (L : ℚ) : Bool :=
  let nr := f.length
  let nc := (f.headD []).length
  !((reachBelow (belowLevel f L) c (nr * nc)).any (onBoundary nr nc))

/-! ## Metric computation (spec §4.4) and the per-timestep body (§4.5) -/

/-- Sector-average pressure: arithmetic mean over the eligible cells. -/
def sectorMean (cells : List (ℕ × ℕ × ℚ)) : ℚ :=
  (cells.map fun c => c.2.2).sum / (cells.length : ℚ)

/-- One detected low with its four metrics (spec §3, "ASL Record" fields). -/
structure ASLRow where
  lon : ℚ
  lat : ℚ
  actCenPres : ℚ
  sectorPres : ℚ
  relCenPres : ℚ
  deriving DecidableEq

/-- Configuration surface of the core (spec §6): narrow sector box, wider
closure box, contour step threshold, and the missing-data policy (`strict`
drops unclosed candidates, otherwise they are reported). -/
structure Config where
  lon0 : ℚ
  lon1 : ℚ
  lat0 : ℚ
  lat1 : ℚ
  wlon0 : ℚ
  wlon1 : ℚ
  wlat0 : ℚ
  wlat1 : ℚ
  cint : ℚ
  strict : Bool

/-- Closure of a candidate located by its geographic coordinates inside
the wider window: locate the candidate's indices there and run the contour
test at level `candidate pressure + contour step`; a candidate that does
not lie inside the wider window is not closed. -/
def isClosedAt (cfg : Config) (wide : Window) (lat lon p : ℚ) : Bool :=
  match wide.lats.indexOf? lat, wide.lons.indexOf? lon with
  | some wi, some wj => hasClosedContour wide.vals (wi, wj) (p + cfg.cint)
  | _, _ => false

/-- Detection on an already-sliced pair of windows: minimum over the narrow
window, metrics from the same window (§4.4), closure from the wider one. -/
def detectLowIn (cfg : Config) (w wide : Window) : Option (ASLRow × Bool) :=
  match pickMin (eligibleCells w) with
  | none => none
  | some c =>
      some ({ lon := w.lons.getD c.2.1 0, lat := w.lats.getD c.1 0,
              actCenPres := c.2.2,
              sectorPres := sectorMean (eligibleCells w),
              relCenPres := c.2.2 - sectorMean (eligibleCells w) },
        isClosedAt cfg wide (w.lats.getD c.1 0) (w.lons.getD c.2.1 0) c.2.2)

/-- Modelled from the spec: detection for one field (§4.3 with §4.4) —
minimum over the narrow sector window, metrics from the same window, and
the closure flag evaluated in the wider window at level
`candidate pressure + contour step`.  The Python per-timestep function of
the missing `asli` module is not in the source tree. -/
def detectLow (cfg : Config) (g : Grid) (m : MaskM) : Option (ASLRow × Bool) :=
  detectLowIn cfg (windowOf g m cfg.lon0 cfg.lon1 cfg.lat0 cfg.lat1)
    (windowOf g m cfg.wlon0 cfg.wlon1 cfg.wlat0 cfg.wlat1)

/-- One row of the result time series: the time stamp is always present,
the analytic fields are missing when no valid low was found (spec §3). -/
structure ASLRecord where
  time : ℕ
  row : Option ASLRow
  deriving DecidableEq

/-- Modelled from the spec: the per-timestep body of the orchestrator
(§4.5) — any failure local to the step (no eligible cell, all-NaN field,
unclosed candidate under the strict policy) yields a record with missing
analytic fields and the correct time stamp. -/
def perStep (cfg : Config) (m : MaskM) (lats lons : List ℚ) (item : ℕ × Field) :
    ASLRecord :=
  match detectLow cfg ⟨lats, lons, item.2⟩ m with
  | none => ⟨item.1, none⟩
  | some (row, closed) =>
      if closed then ⟨item.1, some row⟩
      else if cfg.strict then ⟨item.1, none⟩
      else ⟨item.1, some row⟩

/-! ## Orchestrator and parallel execution layer (spec §4.5, §4.6, §5) -/

/-- The authoritative final sort of the result table by time stamp. -/
def sortByTime (l : List ASLRecord) : List ASLRecord :=
  List.insertionSort (fun a b => a.time ≤ b.time) l

/-- Modelled from the spec: the sequential orchestrator (§4.5) — one record
per requested time step, final table sorted by time stamp.  The Python
`ASLICalculator.calculate` body is not in the source tree (the notebook
only calls it). -/
def orchestrate (cfg : Config) (m : MaskM) (lats lons : List ℚ)
    (dataset : List (ℕ × Field)) : List ASLRecord :=
  sortByTime (dataset.map (perStep cfg m lats lons))

/-- The items with their positions, indexing from `i`. -/
def withIdx (i : ℕ) : List α → List (ℕ × α)
  | [] => []
  | a :: as => (i, a) :: withIdx (i + 1) as

/-- The share of items dispatched to worker `k` of `n` (round-robin
assignment of independent units, spec §4.6). -/
def workerShare (n k : ℕ) (items : List α) : List α :=
  ((withIdx 0 items).filter fun p => decide (p.1 % n = k)).map Prod.snd

/-- Modelled from the spec: the parallel execution layer (§4.6) — the
per-timestep body is dispatched round-robin over `n` workers, the workers'
result lists are collected as each finishes (modelled worker-by-worker, an
order that differs from dispatch order once `n > 1`), and the table is
reassembled by the authoritative time sort. -/
def runParallel (cfg : Config) (m : MaskM) (lats lons : List ℚ) (n : ℕ)
    (dataset : List (ℕ × Field)) : List ASLRecord :=
  sortByTime
    (((List.range n).map fun k =>
        (workerShare n k dataset).map (perStep cfg m lats lons)).flatten)

/-! ## Setup validation and error kinds (spec §4.1, §7) -/

/-- Per-field load failures of the Grid/Mask model (spec §4.1). -/
inductive LoadError where
  | shapeMismatch
  | missingData
  deriving DecidableEq

/-- Fatal configuration/setup failures (spec §7). -/
inductive SetupError where
  | shapeMismatch
  | outOfBounds
  | workerPoolFailure
  deriving DecidableEq

/-- Modelled from the spec: the Grid/Mask model's field load (§4.1) — fails
with `shapeMismatch` when field and mask coordinates differ, with
`missingData` when the field is entirely NaN or empty.  The Python
`read_mask_data`/`read_msl_data` bodies are not in the source tree. -/
def loadField (flats flons : List ℚ) (f : Field) (mlats mlons : List ℚ) :
    Except LoadError Field :=
  if flats = mlats ∧ flons = mlons then
    if allNaN f then .error .missingData else .ok f
  else .error .shapeMismatch

/-- Modelled from the spec: the fatal setup checks (§7), run before any
per-timestep work — grid/mask coordinate agreement, a non-degenerate
sector window, and a startable worker pool. -/
def checkSetup (cfg : Config) (lats lons mlats mlons : List ℚ) (n : ℕ) :
    Option SetupError :=
  if ¬(lats = mlats ∧ lons = mlons) then some .shapeMismatch
  else if keptIdx (latInSector cfg.lat0 cfg.lat1) lats = [] ∨
          keptIdx (lonInSector cfg.lon0 cfg.lon1) lons = [] then
    some .outOfBounds
  else if n = 0 then some .workerPoolFailure
  else none

/-- Modelled from the spec: the whole run (§4.5–§4.6 with §7's propagation
policy) — setup failures are fatal before computation starts, per-timestep
failures are contained in the per-step body. -/
def runAll (cfg : Config) (m : MaskM) (lats lons mlats mlons : List ℚ)
    (n : ℕ) (dataset : List (ℕ × Field)) : Except SetupError (List ASLRecord) :=
  match checkSetup cfg lats lons mlats mlons n with
  | some e => .error e
  | none => .ok (runParallel cfg m lats lons n dataset)

/-! ## Output contract (spec §6 and `src/asli/templates/asli_data.csv.template`) -/

/-- Rounding to `d` decimal places for reporting (spec §4.4). -/
def roundTo (d : ℕ) (q : ℚ) : ℚ := (round (q * 10 ^ d) : ℚ) / 10 ^ d

/-- A calendar date as printed in the `time` column. -/
structure DateYMD where
  year : ℕ
  month : ℕ
  day : ℕ
  deriving DecidableEq

/-- Modelled from the spec: a monthly time-step ordinal rendered as a
YYYY-MM-01 date (template comment: `time = YYYY-MM-01 (monthly data)`);
the ordinal counts months from January of a base year. -/
def dateOf (base : ℕ) (t : ℕ) : DateYMD :=
  { year := base + t / 12, month := t % 12 + 1, day := 1 }

/-- One printed row of the output table, fields in the column order of the
template's header row. -/
structure OutRow where
  time : DateYMD
  lon : Option ℚ
  lat : Option ℚ
  actCenPres : Option ℚ
  sectorPres : Option ℚ
  relCenPres : Option ℚ
  deriving DecidableEq

/-- Modelled from the spec: formatting one record for the output table —
coordinates rounded to 2 decimals, pressures to 1 (§4.4); missing analytic
fields stay missing while the time stamp is always printed (§3). -/
def formatRecord (base : ℕ) (r : ASLRecord) : OutRow :=
  { time := dateOf base r.time
    lon := r.row.map fun w => roundTo 2 w.lon
    lat := r.row.map fun w => roundTo 2 w.lat
    actCenPres := r.row.map fun w => roundTo 1 w.actCenPres
    sectorPres := r.row.map fun w => roundTo 1 w.sectorPres
    relCenPres := r.row.map fun w => roundTo 1 w.relCenPres }

/-- The printed output table. -/
def outTable (base : ℕ) (recs : List ASLRecord) : List OutRow :=
  recs.map (formatRecord base)

/-- The column-label row, line 30 of
`src/asli/templates/asli_data.csv.template`. -/
def csvHeaderRow : String := "time,lon,lat,ActCenPres,SectorPres,RelCenPres"

/-- Lines 2–28 of `src/asli/templates/asli_data.csv.template` (line 1 is a
Jinja2 comment that renders to nothing), with the three `\x7b\x7b ... \x7d\x7d`
version placeholders substituted as `to_csv` does when rendering. -/
def csvCommentLines (cv sv dv : String) : List String :=
  [ "# "
  , "# Amundsen Sea Low (ASL) Index version 3"
  , "#   (derived from monthly ERA5 Reanalysis data)"
  , "# "
  , "# Dr J. Scott Hosking"
  , "#   British Antarctic Survey"
  , "#   Twitter: @scotthosking"
  , "# "
  , "# For more information see:"
  , "#   Website: https://scotthosking.com/asl_index"
  , "#   GitHub:  https://github.com/scotthosking/amundsen_sea_low_index"
  , "# "
  , "# Column Labels:"
  , "#   time       = YYYY-MM-01 (monthly data)"
  , "#   SectorPres = Area-average sea level pressure over sector (170-298 E : 60-80 S)"
  , "#   ActCenPres = Actual central pressure of ASL"
  , "#   lon        = Longitudinal location of ASL (degrees East)"
  , "#   lat        = Latitudinal location of ASL"
  , "#   RelCenPres = Relative central pressure (ActCenPres \x27minus\x27 SectorPres)"
  , "# "
  , "# The ASL (low pressure system) detection algorithm may be improved over time. Therefore "
  , "# it is recommended that the version number below is noted when using these data."
  , "#   ASLi_version_id = " ++ cv
  , "#   ASLi_software_version = " ++ sv
  , "#   data_version = " ++ dv
  , "# "
  , "# "
  ]

/-- The rendered template: the comment block, the blank line 29, then the
column-label row — exactly lines 2–30 of the template. -/
def renderTemplate (cv sv dv : String) : List String :=
  csvCommentLines cv sv dv ++ ["", csvHeaderRow]

/-! ## Concrete test scenarios (spec §8) -/

/-- Latitudes of the synthetic 5×5 grid (spec §8 scenarios). -/
def latsS : List ℚ := [-78, -76, -74, -72, -70]

/-- Longitudes of the synthetic 5×5 grid. -/
def lonsS : List ℚ := [200, 202, 204, 206, 208]

/-- All-ocean 5×5 mask. -/
def maskS : MaskM :=
  [ [true, true, true, true, true]
  , [true, true, true, true, true]
  , [true, true, true, true, true]
  , [true, true, true, true, true]
  , [true, true, true, true, true] ]

/-- Synthetic 5×5 field: one interior cell at the unique global minimum
980, all other cells 1000, no NaN. -/
def valsS : Field :=
  [ [some 1000, some 1000, some 1000, some 1000, some 1000]
  , [some 1000, some 1000, some 1000, some 1000, some 1000]
  , [some 1000, some 1000, some 980, some 1000, some 1000]
  , [some 1000, some 1000, some 1000, some 1000, some 1000]
  , [some 1000, some 1000, some 1000, some 1000, some 1000] ]

/-- Synthetic 5×5 field monotonically decreasing toward the domain edge:
1000 at the centre, 995 on the middle ring, 990 on the edge — the minimum
sits on the boundary and no interior minimum exists. -/
def valsMono : Field :=
  [ [some 990, some 990, some 990, some 990, some 990]
  , [some 990, some 995, some 995, some 995, some 990]
  , [some 990, some 995, some 1000, some 995, some 990]
  , [some 990, some 995, some 995, some 995, some 990]
  , [some 990, some 990, some 990, some 990, some 990] ]

/-- The synthetic 5×5 grid with the interior minimum. -/
def gridS : Grid := { lats := latsS, lons := lonsS, vals := valsS }

/-- The synthetic 5×5 grid decreasing toward the edge. -/
def gridMono : Grid := { lats := latsS, lons := lonsS, vals := valsMono }

/-- Scenario configuration: narrow sector and wider window both the full
ASL sector 170–298°E, 60–80°S, contour step 2 hPa, strict policy. -/
def cfgS : Config :=
  { lon0 := 170, lon1 := 298, lat0 := -80, lat1 := -60
    wlon0 := 170, wlon1 := 298, wlat0 := -80, wlat1 := -60
    cint := 2, strict := true }

/-- The expected detection result for `valsS`: the centre cell. -/
def rowS : ASLRow :=
  { lon := 204, lat := -74, actCenPres := 980
    sectorPres := 24980 / 25, relCenPres := 980 - 24980 / 25 }

/-- The expected (unclosed) detection result for `valsMono`: the row-major
first of the edge minima. -/
def rowM : ASLRow :=
  { lon := 200, lat := -78, actCenPres := 990, sectorPres := 992
    relCenPres := -2 }

/-- A 1×2 window with two eligible cells sharing the minimum pressure. -/
def wTie : Window :=
  { lats := [-70], lons := [200, 202]
    vals := [[some 5, some 5]], mask := [[true, true]] }

/-- A tiny three-step dataset (time stamps 0, 1, 2; the middle field is
entirely NaN) used to witness the orchestrator-level theorems. -/
def datasetW : List (ℕ × Field) :=
  [(0, [[some 3]]), (1, [[none]]), (2, [[some 7]])]

/-! ## Order instances for the time sort -/

instance : IsTotal ASLRecord fun a b => a.time ≤ b.time :=
  ⟨fun a b => Nat.le_total a.time b.time⟩

instance : IsTrans ASLRecord fun a b => a.time ≤ b.time :=
  ⟨fun _ _ _ => Nat.le_trans⟩

instance : IsAntisymm ASLRecord fun a b => a.time < b.time :=
  ⟨fun _ _ h h' => absurd (Nat.lt_trans h h') (Nat.lt_irrefl _)⟩

/-! # Lemmas about longitude normalization -/

theorem normLon_eq_self {x : ℚ} (h0 : 0 ≤ x) (h1 : x < 360) : normLon x = x := by
  have hf : ⌊x / 360⌋ = 0 := by
    rw [Int.floor_eq_zero_iff, Set.mem_Ico]
    refine ⟨by positivity, ?_⟩
    rw [div_lt_one (by norm_num)]
    exact h1
  unfold normLon
  rw [hf]
  ring

/-- C6: the sector window for the wrap-crossing longitude range expressed
as 170 to 298 is the same window as for the range expressed as 170 to −62,
for every grid and mask: both bounds are normalized to one convention
before slicing, so the two representations select the same region. -/
theorem sector_window_wrap_invariant (g : Grid) (m : MaskM) (lat0 lat1 : ℚ) :
    windowOf g m 170 298 lat0 lat1 = windowOf g m 170 (-62) lat0 lat1 := by
  have hfun : lonInSector 170 298 = lonInSector 170 (-62) := by
    funext x
    have h1 : normLon 298 = 298 := normLon_eq_self (by norm_num) (by norm_num)
    have h2 : normLon (-62) = 298 := by
      have hf : ⌊(-62 : ℚ) / 360⌋ = -1 := by
        rw [Int.floor_eq_iff]
        constructor <;> norm_num
      unfold normLon
      rw [hf]
      norm_num
    simp only [lonInSector]
    rw [h1, h2]
  unfold windowOf
  rw [hfun]

/-! # Lemmas about minimum selection (spec §4.3 steps 1 and 4) -/

theorem split_head_le {c r : Cell} {xs l₁ l₂ : List Cell}
    (heq : c :: xs = l₁ ++ r :: l₂) (hl₁ : ∀ y ∈ l₁, r.2.2 < y.2.2) :
    r.2.2 ≤ c.2.2 := by
  rcases l₁ with _ | ⟨a, t⟩
  · rw [List.nil_append] at heq
    obtain ⟨h1, -⟩ := List.cons.inj heq
    rw [h1]
  · rw [List.cons_append] at heq
    obtain ⟨h1, -⟩ := List.cons.inj heq
    exact le_of_lt (h1 ▸ hl₁ a (List.mem_cons_self a t))

theorem foldlMin_split (cs : List Cell) (c : Cell) :
    ∃ l₁ l₂, c :: cs = l₁ ++ (cs.foldl minStep c) :: l₂ ∧
      (∀ y ∈ l₁, (cs.foldl minStep c).2.2 < y.2.2) ∧
      (∀ y ∈ l₂, (cs.foldl minStep c).2.2 ≤ y.2.2) := by
  induction cs generalizing c with
  | nil =>
    exact ⟨[], [], rfl, by simp, by simp⟩
  | cons y ys ih =>
    rw [List.foldl_cons]
    obtain ⟨l₁, l₂, heq, hl₁, hl₂⟩ := ih (minStep c y)
    have hrle : (ys.foldl minStep (minStep c y)).2.2 ≤ (minStep c y).2.2 :=
      split_head_le heq hl₁
    by_cases hy : y.2.2 < c.2.2
    · have hs : minStep c y = y := if_pos hy
      rw [hs] at heq hl₁ hl₂ hrle ⊢
      refine ⟨c :: l₁, l₂, ?_, ?_, hl₂⟩
      · rw [List.cons_append, ← heq]
      · intro z hz
        rcases List.mem_cons.mp hz with rfl | hz'
        · exact lt_of_le_of_lt hrle hy
        · exact hl₁ z hz'
    · have hs : minStep c y = c := if_neg hy
      rw [hs] at heq hl₁ hl₂ hrle ⊢
      rcases l₁ with _ | ⟨a, t⟩
      · rw [List.nil_append] at heq
        obtain ⟨h1, h2⟩ := List.cons.inj heq
        refine ⟨[], y :: l₂, ?_, by simp, ?_⟩
        · rw [List.nil_append, ← h1, ← h2]
        · intro z hz
          rcases List.mem_cons.mp hz with rfl | hz'
          · rw [← h1]
            exact le_of_not_lt hy
          · exact hl₂ z hz'
      · rw [List.cons_append] at heq
        obtain ⟨h1, h2⟩ := List.cons.inj heq
        have hlt_c : (ys.foldl minStep c).2.2 < c.2.2 :=
          h1 ▸ hl₁ a (List.mem_cons_self a t)
        refine ⟨c :: y :: t, l₂, ?_, ?_, hl₂⟩
        · rw [List.cons_append, List.cons_append, ← h2]
        · intro z hz
          rcases List.mem_cons.mp hz with rfl | hz'
          · exact hlt_c
          rcases List.mem_cons.mp hz' with rfl | hz''
          · exact lt_of_lt_of_le hlt_c (le_of_not_lt hy)
          · exact hl₁ z (List.mem_cons_of_mem a hz'')

theorem rowCellsFrom_mem {i : ℕ} {x : Cell} :
    ∀ {j : ℕ} {vs : List (Option ℚ)} {bs : List Bool},
      x ∈ rowCellsFrom i j vs bs → x.1 = i ∧ j ≤ x.2.1 := by
  intro j vs
  induction vs generalizing j with
  | nil => intro bs hx; simp [rowCellsFrom] at hx
  | cons v vs ih =>
    intro bs hx
    cases bs with
    | nil => simp [rowCellsFrom] at hx
    | cons b bs =>
      rw [rowCellsFrom] at hx
      rcases List.mem_append.mp hx with h1 | h2
      · cases v <;> cases b <;> simp [entryCell] at h1
        subst h1
        exact ⟨rfl, le_refl _⟩
      · obtain ⟨ha, hb⟩ := ih h2
        exact ⟨ha, Nat.le_of_succ_le hb⟩

theorem rowCellsFrom_pairwise (i : ℕ) :
    ∀ (j : ℕ) (vs : List (Option ℚ)) (bs : List Bool),
      (rowCellsFrom i j vs bs).Pairwise fun x y => x.2.1 < y.2.1 := by
  intro j vs
  induction vs generalizing j with
  | nil => intro bs; simp [rowCellsFrom]
  | cons v vs ih =>
    intro bs
    cases bs with
    | nil => simp [rowCellsFrom]
    | cons b bs =>
      rw [rowCellsFrom]
      refine List.pairwise_append.mpr ⟨?_, ih (j + 1) bs, ?_⟩
      · cases v <;> cases b <;> simp [entryCell]
      · intro x hx y hy
        cases v <;> cases b <;> simp [entryCell] at hx
        subst hx
        have h2 := (rowCellsFrom_mem hy).2
        show j < y.2.1
        omega

theorem cellsFrom_mem {x : Cell} :
    ∀ {i : ℕ} {rs : Field} {ms : MaskM}, x ∈ cellsFrom i rs ms → i ≤ x.1 := by
  intro i rs
  induction rs generalizing i with
  | nil => intro ms hx; simp [cellsFrom] at hx
  | cons r rs ih =>
    intro ms hx
    cases ms with
    | nil => simp [cellsFrom] at hx
    | cons mr ms =>
      rw [cellsFrom] at hx
      rcases List.mem_append.mp hx with h1 | h2
      · exact le_of_eq (rowCellsFrom_mem h1).1.symm
      · exact Nat.le_of_succ_le (ih h2)

theorem cellsFrom_pairwise :
    ∀ (i : ℕ) (rs : Field) (ms : MaskM),
      (cellsFrom i rs ms).Pairwise
        fun x y => x.1 < y.1 ∨ (x.1 = y.1 ∧ x.2.1 < y.2.1) := by
  intro i rs
  induction rs generalizing i with
  | nil => intro ms; simp [cellsFrom]
  | cons r rs ih =>
    intro ms
    cases ms with
    | nil => simp [cellsFrom]
    | cons mr ms =>
      rw [cellsFrom]
      refine List.pairwise_append.mpr ⟨?_, ih (i + 1) ms, ?_⟩
      · refine (rowCellsFrom_pairwise i 0 r mr).imp_of_mem ?_
        intro a b ha hb hab
        exact Or.inr ⟨(rowCellsFrom_mem ha).1.trans (rowCellsFrom_mem hb).1.symm, hab⟩
      · intro x hx y hy
        have hx1 : x.1 = i := (rowCellsFrom_mem hx).1
        have hy1 : i + 1 ≤ y.1 := cellsFrom_mem hy
        exact Or.inl (by omega)

/-- C7: when several eligible cells of the sector window share the minimum
pressure, `pickMin` selects the first in lexicographic
latitude-then-longitude (row-major) order: the selected cell is eligible,
its pressure is a lower bound for every eligible cell, and every tying cell
is lexicographically at or after it.  As a pure function of the window, the
selection is identical on every run over the same input. -/
theorem pickMin_lex_first (w : Window) (x : Cell)
    (h : pickMin (eligibleCells w) = some x) :
    x ∈ eligibleCells w ∧
      (∀ y ∈ eligibleCells w, x.2.2 ≤ y.2.2) ∧
      (∀ y ∈ eligibleCells w, y.2.2 = x.2.2 →
        x.1 < y.1 ∨ (x.1 = y.1 ∧ x.2.1 ≤ y.2.1)) := by
  have hpw0 : (eligibleCells w).Pairwise
      fun a b => a.1 < b.1 ∨ (a.1 = b.1 ∧ a.2.1 < b.2.1) :=
    cellsFrom_pairwise 0 w.vals w.mask
  rcases hc : eligibleCells w with _ | ⟨c, cs⟩
  · rw [hc] at h
    simp [pickMin] at h
  · rw [hc] at h hpw0
    rw [pickMin] at h
    have hx : cs.foldl minStep c = x := by
      injection h
    obtain ⟨l₁, l₂, heq, hl₁, hl₂⟩ := foldlMin_split cs c
    rw [hx] at heq hl₁ hl₂
    rw [heq] at hpw0
    refine ⟨?_, ?_, ?_⟩
    · rw [heq]
      exact List.mem_append.mpr (Or.inr (List.mem_cons_self _ _))
    · intro y hy
      rw [heq] at hy
      rcases List.mem_append.mp hy with h1 | h2
      · exact le_of_lt (hl₁ y h1)
      · rcases List.mem_cons.mp h2 with rfl | h3
        · exact le_refl _
        · exact hl₂ y h3
    · intro y hy hyp
      rw [heq] at hy
      rcases List.mem_append.mp hy with h1 | h2
      · exact absurd (hyp ▸ hl₁ y h1) (lt_irrefl _)
      · rcases List.mem_cons.mp h2 with rfl | h3
        · exact Or.inr ⟨rfl, le_refl _⟩
        · have hlex := (List.pairwise_cons.mp (List.pairwise_append.mp hpw0).2.1).1 y h3
          rcases hlex with h4 | ⟨h4, h5⟩
          · exact Or.inl h4
          · exact Or.inr ⟨h4, le_of_lt h5⟩

/-- Witness for C7 on a window with a two-way tie at pressure 5: the
lexicographically first cell (0,0) is selected. -/
theorem pickMin_lex_first_witness :
    pickMin (eligibleCells wTie) = some (0, 0, 5) ∧
      ((0, 0, 5) : Cell) ∈ eligibleCells wTie ∧
      (∀ y ∈ eligibleCells wTie, (5 : ℚ) ≤ y.2.2) ∧
      (∀ y ∈ eligibleCells wTie, y.2.2 = (5 : ℚ) →
        0 < y.1 ∨ (0 = y.1 ∧ 0 ≤ y.2.1)) := by
  have h : pickMin (eligibleCells wTie) = some (0, 0, 5) := by decide
  exact ⟨h, pickMin_lex_first wTie (0, 0, 5) h⟩

/-! # Lemmas about the time sort and the orchestrator -/

theorem perStep_time (cfg : Config) (m : MaskM) (lats lons : List ℚ)
    (x : ℕ × Field) : (perStep cfg m lats lons x).time = x.1 := by
  unfold perStep
  cases hD : detectLow cfg ⟨lats, lons, x.2⟩ m with
  | none => rfl
  | some rc =>
    obtain ⟨row, closed⟩ := rc
    dsimp only
    cases closed
    · cases cfg.strict <;> rfl
    · rfl

theorem map_time_perStep (cfg : Config) (m : MaskM) (lats lons : List ℚ)
    (dataset : List (ℕ × Field)) :
    (dataset.map (perStep cfg m lats lons)).map ASLRecord.time
      = dataset.map Prod.fst := by
  rw [List.map_map]
  exact List.map_congr_left fun x _ => perStep_time cfg m lats lons x

theorem sortByTime_perm (l : List ASLRecord) : (sortByTime l).Perm l :=
  List.perm_insertionSort _ l

theorem sortByTime_sorted (l : List ASLRecord) :
    (sortByTime l).Sorted fun a b => a.time ≤ b.time :=
  List.sorted_insertionSort _ l

theorem pairwise_lt_time_of_sorted {l : List ASLRecord}
    (hs : l.Sorted fun a b => a.time ≤ b.time)
    (hnd : (l.map ASLRecord.time).Nodup) :
    l.Pairwise fun a b => a.time < b.time := by
  have hne : l.Pairwise fun a b => a.time ≠ b.time := by
    rw [List.Nodup, List.pairwise_map] at hnd
    exact hnd
  exact (hs.and hne).imp fun h => lt_of_le_of_ne h.1 h.2

theorem sortByTime_eq_of_perm {l l' : List ASLRecord} (hp : l.Perm l')
    (hnd : (l.map ASLRecord.time).Nodup) :
    sortByTime l = sortByTime l' := by
  have hnd1 : ((sortByTime l).map ASLRecord.time).Nodup :=
    ((sortByTime_perm l).map ASLRecord.time).nodup_iff.mpr hnd
  have hnd2 : ((sortByTime l').map ASLRecord.time).Nodup :=
    ((sortByTime_perm l').map ASLRecord.time).nodup_iff.mpr
      ((hp.map ASLRecord.time).nodup_iff.mp hnd)
  exact List.eq_of_perm_of_sorted
    ((sortByTime_perm l).trans (hp.trans (sortByTime_perm l').symm))
    (pairwise_lt_time_of_sorted (sortByTime_sorted l) hnd1)
    (pairwise_lt_time_of_sorted (sortByTime_sorted l') hnd2)

/-- C3: for every valid input dataset (distinct requested time stamps) the
result table has exactly one record per requested time step — its length is
the number of requested steps and its time stamps are a permutation of the
requested ones — and its time stamps are strictly increasing, hence free of
duplicates and in order. -/
theorem result_table_complete (cfg : Config) (m : MaskM) (lats lons : List ℚ)
    (dataset : List (ℕ × Field)) (hnd : (dataset.map Prod.fst).Nodup) :
    (orchestrate cfg m lats lons dataset).length = dataset.length ∧
      ((orchestrate cfg m lats lons dataset).map ASLRecord.time).Perm
        (dataset.map Prod.fst) ∧
      ((orchestrate cfg m lats lons dataset).map ASLRecord.time).Pairwise
        (· < ·) := by
  unfold orchestrate
  have hperm := sortByTime_perm (dataset.map (perStep cfg m lats lons))
  have hndm : ((dataset.map (perStep cfg m lats lons)).map ASLRecord.time).Nodup := by
    rw [map_time_perStep]
    exact hnd
  refine ⟨?_, ?_, ?_⟩
  · rw [hperm.length_eq, List.length_map]
  · refine (hperm.map ASLRecord.time).trans ?_
    rw [map_time_perStep]
  · have hnds : ((sortByTime (dataset.map (perStep cfg m lats lons))).map
        ASLRecord.time).Nodup := (hperm.map ASLRecord.time).nodup_iff.mpr hndm
    rw [List.pairwise_map]
    exact pairwise_lt_time_of_sorted (sortByTime_sorted _) hnds

/-- Witness for C3 on the three-step dataset with distinct time stamps. -/
theorem result_table_complete_witness :
    ((datasetW.map Prod.fst).Nodup) ∧
      ((orchestrate cfgS [[true]] [-70] [200] datasetW).length
          = datasetW.length ∧
        ((orchestrate cfgS [[true]] [-70] [200] datasetW).map
            ASLRecord.time).Perm (datasetW.map Prod.fst) ∧
        ((orchestrate cfgS [[true]] [-70] [200] datasetW).map
            ASLRecord.time).Pairwise (· < ·)) :=
  ⟨by decide, result_table_complete cfgS [[true]] [-70] [200] datasetW (by decide)⟩

/-! # Lemmas about the parallel execution layer -/

theorem withIdx_map_snd : ∀ (i : ℕ) (l : List α), (withIdx i l).map Prod.snd = l := by
  intro i l
  induction l generalizing i with
  | nil => rfl
  | cons a as ih => simp [withIdx, ih]

theorem flatten_map_map (f : α → β) :
    ∀ L : List (List α), (L.map (List.map f)).flatten = L.flatten.map f := by
  intro L
  induction L with
  | nil => rfl
  | cons l ls ih =>
    rw [List.map_cons, List.flatten_cons, List.flatten_cons, ih, List.map_append]

theorem flatMap_nil_of (f : ℕ → List α) :
    ∀ ks : List ℕ, (∀ k ∈ ks, f k = []) → ks.flatMap f = [] := by
  intro ks
  induction ks with
  | nil => intro _; rfl
  | cons k kt ih =>
    intro h
    rw [List.flatMap_cons, h k (List.mem_cons_self _ _), List.nil_append]
    exact ih fun k' hk' => h k' (List.mem_cons_of_mem _ hk')

theorem flatMap_single (a : α) (j : ℕ) :
    ∀ n : ℕ, j < n →
      ((List.range n).flatMap fun k => if j = k then [a] else []) = [a] := by
  intro n
  induction n with
  | zero => omega
  | succ n ih =>
    intro hj
    rw [List.range_succ, List.flatMap_append]
    rcases Nat.lt_succ_iff_lt_or_eq.mp hj with h | h
    · rw [ih h, List.flatMap_cons, List.flatMap_nil,
        if_neg (by omega), List.append_nil, List.append_nil]
    · subst h
      rw [flatMap_nil_of _ _ fun k hk =>
        if_neg fun he => absurd (he ▸ List.mem_range.mp hk) (lt_irrefl _)]
      simp

theorem flatMap_append_perm (p q : ℕ → List α) :
    ∀ ks : List ℕ,
      (ks.flatMap fun k => p k ++ q k).Perm (ks.flatMap p ++ ks.flatMap q) := by
  intro ks
  induction ks with
  | nil => exact List.Perm.refl _
  | cons k ks ih =>
    simp only [List.flatMap_cons]
    refine (ih.append_left (p k ++ q k)).trans ?_
    have h1 : (p k ++ q k) ++ (ks.flatMap p ++ ks.flatMap q)
        = p k ++ ((q k ++ ks.flatMap p) ++ ks.flatMap q) := by
      simp [List.append_assoc]
    have h2 : (p k ++ ks.flatMap p) ++ (q k ++ ks.flatMap q)
        = p k ++ ((ks.flatMap p ++ q k) ++ ks.flatMap q) := by
      simp [List.append_assoc]
    rw [h1, h2]
    exact List.Perm.append_left _
      (List.Perm.append_right _ List.perm_append_comm)

theorem flatMap_filter_key_perm (key : α → ℕ) :
    ∀ (l : List α) (n : ℕ), (∀ x ∈ l, key x < n) →
      ((List.range n).flatMap fun k => l.filter fun x => decide (key x = k)).Perm
        l := by
  intro l
  induction l with
  | nil =>
    intro n _
    rw [flatMap_nil_of _ _ fun k _ => List.filter_nil _]
  | cons a as ih =>
    intro n h
    have hk : key a < n := h a (List.mem_cons_self _ _)
    have has : ∀ x ∈ as, key x < n := fun x hx => h x (List.mem_cons_of_mem _ hx)
    have hsplit : (fun k => (a :: as).filter fun x => decide (key x = k))
        = fun k => (if key a = k then [a] else []) ++
            as.filter fun x => decide (key x = k) := by
      funext k
      by_cases hak : key a = k <;> simp [List.filter_cons, hak]
    rw [hsplit]
    refine (flatMap_append_perm _ _ (List.range n)).trans ?_
    rw [flatMap_single a (key a) n hk, List.singleton_append]
    exact (ih n has).cons a

theorem shares_flatten_perm {n : ℕ} (hn : 0 < n) (items : List α) :
    (((List.range n).map fun k => workerShare n k items).flatten).Perm items := by
  rw [← List.flatMap_def]
  unfold workerShare
  have hpull : ((List.range n).flatMap fun k =>
        ((withIdx 0 items).filter fun p => decide (p.1 % n = k)).map Prod.snd)
      = (((List.range n).flatMap fun k =>
          (withIdx 0 items).filter fun p => decide (p.1 % n = k)).map Prod.snd) := by
    induction (List.range n) with
    | nil => rfl
    | cons k kt ih => simp [ih]
  rw [hpull]
  have hperm := flatMap_filter_key_perm (fun p => p.1 % n) (withIdx 0 items) n
    fun x _ => Nat.mod_lt _ hn
  have := hperm.map Prod.snd
  rwa [withIdx_map_snd] at this

/-- C5: the result table is a deterministic function of the dataset,
independent of the dispatch and completion order of the parallel units —
running with worker concurrency 1 and with worker concurrency 8 produces
identical tables, given distinct requested time stamps. -/
theorem concurrency_independent (cfg : Config) (m : MaskM) (lats lons : List ℚ)
    (dataset : List (ℕ × Field)) (hnd : (dataset.map Prod.fst).Nodup) :
    runParallel cfg m lats lons 1 dataset
      = runParallel cfg m lats lons 8 dataset := by
  have step : ∀ n : ℕ, 0 < n → runParallel cfg m lats lons n dataset
      = sortByTime (dataset.map (perStep cfg m lats lons)) := by
    intro n hn
    unfold runParallel
    have h1 : ((List.range n).map fun k =>
          (workerShare n k dataset).map (perStep cfg m lats lons)).flatten
        = (((List.range n).map fun k => workerShare n k dataset).flatten).map
            (perStep cfg m lats lons) := by
      rw [← flatten_map_map, List.map_map]
      rfl
    rw [h1]
    refine sortByTime_eq_of_perm ((shares_flatten_perm hn dataset).map _) ?_
    have hp := (shares_flatten_perm hn dataset).map (perStep cfg m lats lons)
    refine (hp.map ASLRecord.time).nodup_iff.mpr ?_
    rw [map_time_perStep]
    exact hnd
  rw [step 1 one_pos, step 8 (by norm_num)]

/-- Witness for C5 on the three-step dataset with distinct time stamps. -/
theorem concurrency_independent_witness :
    ((datasetW.map Prod.fst).Nodup) ∧
      runParallel cfgS [[true]] [-70] [200] 1 datasetW
        = runParallel cfgS [[true]] [-70] [200] 8 datasetW :=
  ⟨by decide, concurrency_independent cfgS [[true]] [-70] [200] datasetW (by decide)⟩

/-! # Lemmas about metric computation (spec §4.4) -/

theorem pickMin_spec {l : List Cell} {x : Cell} (h : pickMin l = some x) :
    x ∈ l ∧ ∀ y ∈ l, x.2.2 ≤ y.2.2 := by
  rcases l with _ | ⟨c, cs⟩
  · simp [pickMin] at h
  · rw [pickMin] at h
    have hx : cs.foldl minStep c = x := Option.some.inj h
    obtain ⟨l₁, l₂, heq, hl₁, hl₂⟩ := foldlMin_split cs c
    rw [hx] at heq hl₁ hl₂
    constructor
    · rw [heq]
      exact List.mem_append.mpr (Or.inr (List.mem_cons_self _ _))
    · intro y hy
      rw [heq] at hy
      rcases List.mem_append.mp hy with h1 | h2
      · exact le_of_lt (hl₁ y h1)
      · rcases List.mem_cons.mp h2 with rfl | h3
        · exact le_refl _
        · exact hl₂ y h3

theorem mul_length_le_sum (a : ℚ) :
    ∀ xs : List ℚ, (∀ x ∈ xs, a ≤ x) → a * (xs.length : ℚ) ≤ xs.sum := by
  intro xs
  induction xs with
  | nil => intro _; simp
  | cons x xs ih =>
    intro h
    have h1 : a ≤ x := h x (List.mem_cons_self _ _)
    have h2 := ih fun y hy => h y (List.mem_cons_of_mem _ hy)
    rw [List.sum_cons, List.length_cons]
    push_cast
    have h3 : a * ((xs.length : ℚ) + 1) = a * (xs.length : ℚ) + a := by ring
    rw [h3]
    linarith

theorem le_listMean {xs : List ℚ} {a : ℚ} (hne : xs ≠ [])
    (h : ∀ x ∈ xs, a ≤ x) : a ≤ xs.sum / (xs.length : ℚ) := by
  have hlen : 0 < (xs.length : ℚ) := by
    exact_mod_cast List.length_pos.mpr hne
  rw [le_div_iff₀ hlen]
  exact mul_length_le_sum a xs h

theorem pickMin_le_sectorMean {l : List Cell} {x : Cell}
    (h : pickMin l = some x) : x.2.2 ≤ sectorMean l := by
  obtain ⟨hmem, hmin⟩ := pickMin_spec h
  have hne : l.map (fun z => z.2.2) ≠ [] := by
    intro he
    rw [List.map_eq_nil_iff] at he
    rw [he] at hmem
    exact List.not_mem_nil x hmem
  have hb : ∀ y ∈ l.map fun z => z.2.2, x.2.2 ≤ y := by
    intro y hy
    obtain ⟨z, hz, rfl⟩ := List.mem_map.mp hy
    exact hmin z hz
  have := le_listMean hne hb
  rw [List.length_map] at this
  exact this

theorem detectLowIn_row_spec {cfg : Config} {w wide : Window} {row : ASLRow}
    {b : Bool} (h : detectLowIn cfg w wide = some (row, b)) :
    row.relCenPres = row.actCenPres - row.sectorPres ∧
      row.actCenPres ≤ row.sectorPres := by
  unfold detectLowIn at h
  cases hp : pickMin (eligibleCells w) with
  | none => rw [hp] at h; exact absurd h (by simp)
  | some c =>
    rw [hp] at h
    have hpair := Option.some.inj h
    have hrow : ({ lon := w.lons.getD c.2.1 0, lat := w.lats.getD c.1 0,
                   actCenPres := c.2.2,
                   sectorPres := sectorMean (eligibleCells w),
                   relCenPres := c.2.2 - sectorMean (eligibleCells w) } :
        ASLRow) = row :=
      congrArg Prod.fst hpair
    rw [← hrow]
    exact ⟨rfl, pickMin_le_sectorMean hp⟩

/-- C2: every record emitted with analytic fields — in particular every
time step at which a valid closed low is found — satisfies
`RelCenPres = ActCenPres − SectorPres` and `RelCenPres ≤ 0` exactly, and
still `≤ 0` after the 1-decimal reporting rounding: the central pressure
is the minimum over the sector's eligible cells, hence at most the sector
mean. -/
theorem emitted_metrics (cfg : Config) (m : MaskM) (lats lons : List ℚ)
    (item : ℕ × Field) (row : ASLRow)
    (h : (perStep cfg m lats lons item).row = some row) :
    row.relCenPres = row.actCenPres - row.sectorPres ∧ row.relCenPres ≤ 0 ∧
      roundTo 1 row.relCenPres ≤ 0 := by
  unfold perStep at h
  cases hD : detectLow cfg ⟨lats, lons, item.2⟩ m with
  | none => rw [hD] at h; simp at h
  | some rc =>
    obtain ⟨r, closed⟩ := rc
    rw [hD] at h
    dsimp only at h
    have hrow : r = row := by
      cases closed
      · cases hs : cfg.strict
        · rw [hs] at h
          simp at h
          exact h
        · rw [hs] at h
          simp at h
      · simp at h
        exact h
    unfold detectLow at hD
    obtain ⟨he, hle⟩ := detectLowIn_row_spec hD
    rw [hrow] at he hle
    refine ⟨he, by rw [he]; linarith, ?_⟩
    have hq : row.relCenPres ≤ 0 := by rw [he]; linarith
    unfold roundTo
    have hr : round (row.relCenPres * 10 ^ 1) ≤ round (0 : ℚ) := by
      rw [round_eq, round_eq]
      refine Int.floor_le_floor ?_
      have : row.relCenPres * 10 ^ 1 ≤ 0 :=
        mul_nonpos_of_nonpos_of_nonneg hq (by norm_num)
      linarith
    rw [round_zero] at hr
    have hcast : ((round (row.relCenPres * 10 ^ 1) : ℤ) : ℚ) ≤ 0 := by
      exact_mod_cast hr
    rw [div_le_iff₀ (by positivity)]
    simpa using hcast

/-! # Lemmas about missing data (spec §4.1, §4.5) -/

theorem cellVal_allNaN {f : Field} (h : allNaN f = true) (i j : ℕ) :
    cellVal f i j = none := by
  unfold allNaN at h
  rw [List.all_eq_true] at h
  simp only [cellVal, List.getD_eq_getElem?_getD]
  cases hrow : f[i]? with
  | none => simp
  | some row =>
    have hall := h row (List.getElem?_mem hrow)
    rw [List.all_eq_true] at hall
    simp only [Option.getD_some]
    cases hv : row[j]? with
    | none => simp
    | some v =>
      have hvn := hall v (List.getElem?_mem hv)
      simp only [Option.isNone_iff_eq_none, decide_eq_true_eq] at hvn
      simp [hvn]

theorem cellMask_allMasked {m : MaskM} (h : allMasked m = true) (i j : ℕ) :
    cellMask m i j = false := by
  unfold allMasked at h
  rw [List.all_eq_true] at h
  simp only [cellMask, List.getD_eq_getElem?_getD]
  cases hrow : m[i]? with
  | none => simp
  | some row =>
    have hall := h row (List.getElem?_mem hrow)
    rw [List.all_eq_true] at hall
    simp only [Option.getD_some]
    cases hv : row[j]? with
    | none => simp
    | some b =>
      have hb := hall b (List.getElem?_mem hv)
      cases b
      · simp
      · simp at hb

theorem cellVal_mapped {vals : Field} {ri ci : List ℕ} (i j : ℕ)
    (hv : ∀ a b, cellVal vals a b = none) :
    cellVal (ri.map fun a => ci.map fun b => cellVal vals a b) i j = none := by
  simp only [cellVal, List.getD_eq_getElem?_getD, List.getElem?_map]
  cases hr : ri[i]? with
  | none => simp
  | some a =>
    simp only [Option.map_some', Option.getD_some, List.getElem?_map]
    cases hc : ci[j]? with
    | none => simp
    | some b =>
      simp only [Option.map_some', Option.getD_some]
      simpa [cellVal, List.getD_eq_getElem?_getD] using hv a b

theorem cellMask_mapped {m : MaskM} {ri ci : List ℕ} (i j : ℕ)
    (hv : ∀ a b, cellMask m a b = false) :
    cellMask (ri.map fun a => ci.map fun b => cellMask m a b) i j = false := by
  simp only [cellMask, List.getD_eq_getElem?_getD, List.getElem?_map]
  cases hr : ri[i]? with
  | none => simp
  | some a =>
    simp only [Option.map_some', Option.getD_some, List.getElem?_map]
    cases hc : ci[j]? with
    | none => simp
    | some b =>
      simp only [Option.map_some', Option.getD_some]
      simpa [cellMask, List.getD_eq_getElem?_getD] using hv a b

theorem rowCellsFrom_eq_nil_of_none {i : ℕ} :
    ∀ {j : ℕ} {vs : List (Option ℚ)} {bs : List Bool},
      (∀ k, vs.getD k none = none ∨ bs.getD k false = false) →
      rowCellsFrom i j vs bs = [] := by
  intro j vs
  induction vs generalizing j with
  | nil => intro bs _; cases bs <;> rfl
  | cons v vs ih =>
    intro bs h
    cases bs with
    | nil => rfl
    | cons b bs =>
      rw [rowCellsFrom]
      have h0 := h 0
      simp only [List.getD_cons_zero] at h0
      have hrest : ∀ k, vs.getD k none = none ∨ bs.getD k false = false := by
        intro k
        have := h (k + 1)
        simpa [List.getD_cons_succ] using this
      rw [ih hrest, List.append_nil]
      rcases h0 with h0 | h0 <;> rw [h0]
      · cases b <;> rfl
      · cases v <;> rfl

theorem eligibleCells_eq_nil {w : Window}
    (h : ∀ i j, cellVal w.vals i j = none ∨ cellMask w.mask i j = false) :
    eligibleCells w = [] := by
  unfold eligibleCells
  have main : ∀ (i0 : ℕ) (rs : Field) (ms : MaskM),
      (∀ i j, cellVal rs i j = none ∨ cellMask ms i j = false) →
      cellsFrom i0 rs ms = [] := by
    intro i0 rs
    induction rs generalizing i0 with
    | nil => intro ms _; cases ms <;> rfl
    | cons r rs ih =>
      intro ms hall
      cases ms with
      | nil => rfl
      | cons mr ms =>
        rw [cellsFrom]
        have hrow : ∀ k, r.getD k none = none ∨ mr.getD k false = false := by
          intro k
          have := hall 0 k
          simpa [cellVal, cellMask] using this
        have hrest : ∀ i j, cellVal rs i j = none ∨ cellMask ms i j = false := by
          intro i j
          have := hall (i + 1) j
          simpa [cellVal, cellMask] using this
        rw [rowCellsFrom_eq_nil_of_none hrow, List.nil_append]
        exact ih (i0 + 1) ms hrest
  exact main 0 w.vals w.mask h

theorem windowOf_cell_bad {g : Grid} {m : MaskM} {lon0 lon1 lat0 lat1 : ℚ}
    (h : allNaN g.vals = true ∨ allMasked m = true) (i j : ℕ) :
    cellVal (windowOf g m lon0 lon1 lat0 lat1).vals i j = none ∨
      cellMask (windowOf g m lon0 lon1 lat0 lat1).mask i j = false := by
  rcases h with h | h
  · exact Or.inl (cellVal_mapped i j fun a b => cellVal_allNaN h a b)
  · exact Or.inr (cellMask_mapped i j fun a b => cellMask_allMasked h a b)

theorem detectLow_bad_input {cfg : Config} {g : Grid} {m : MaskM}
    (h : allNaN g.vals = true ∨ allMasked m = true) :
    detectLow cfg g m = none := by
  unfold detectLow detectLowIn
  rw [eligibleCells_eq_nil (windowOf_cell_bad h)]
  rfl

/-- C4: a time step whose field is entirely NaN, or whose window is
entirely masked out, does not crash the run: the per-step body reports the
explicit missing record with the correct time stamp, that record is in the
orchestrator's table, and the failure is contained — the table still has
one record per time step, namely exactly the per-step results. -/
theorem allNaN_step_contained (cfg : Config) (m : MaskM) (lats lons : List ℚ)
    (dataset : List (ℕ × Field)) (t : ℕ) (f : Field)
    (hmem : (t, f) ∈ dataset)
    (hbad : allNaN f = true ∨ allMasked m = true) :
    perStep cfg m lats lons (t, f) = ⟨t, none⟩ ∧
      (⟨t, none⟩ : ASLRecord) ∈ orchestrate cfg m lats lons dataset ∧
      (orchestrate cfg m lats lons dataset).length = dataset.length ∧
      (orchestrate cfg m lats lons dataset).Perm
        (dataset.map (perStep cfg m lats lons)) := by
  have hstep : perStep cfg m lats lons (t, f) = ⟨t, none⟩ := by
    unfold perStep
    rw [detectLow_bad_input hbad]
  refine ⟨hstep, ?_, ?_, sortByTime_perm _⟩
  · refine (sortByTime_perm _).mem_iff.mpr ?_
    rw [← hstep]
    exact List.mem_map_of_mem _ hmem
  · unfold orchestrate
    rw [(sortByTime_perm _).length_eq, List.length_map]

/-! # Setup validation and the propagation policy (spec §7) -/

theorem runParallel_perm (cfg : Config) (m : MaskM) (lats lons : List ℚ)
    {n : ℕ} (hn : 0 < n) (dataset : List (ℕ × Field)) :
    (runParallel cfg m lats lons n dataset).Perm
      (dataset.map (perStep cfg m lats lons)) := by
  unfold runParallel
  refine (sortByTime_perm _).trans ?_
  have h1 : ((List.range n).map fun k =>
        (workerShare n k dataset).map (perStep cfg m lats lons)).flatten
      = (((List.range n).map fun k => workerShare n k dataset).flatten).map
          (perStep cfg m lats lons) := by
    rw [← flatten_map_map, List.map_map]
    rfl
  rw [h1]
  exact (shares_flatten_perm hn dataset).map _

/-- C8: the Grid/Mask load fails with `shapeMismatch` exactly when the
field and mask coordinates differ, and (coordinates agreeing) with
`missingData` exactly when the field is entirely NaN or empty; every setup
failure detected by `checkSetup` (shape mismatch, out-of-bounds sector,
unstartable worker pool) aborts the whole run before any per-time-step
computation, while with a valid setup the run always returns a full-length
table — per-time-step failures never abort sibling time steps. -/
theorem error_policy (cfg : Config) (m : MaskM) (f : Field)
    (lats lons mlats mlons : List ℚ) (n : ℕ) (dataset : List (ℕ × Field)) :
    (loadField lats lons f mlats mlons = .error .shapeMismatch ↔
      ¬(lats = mlats ∧ lons = mlons)) ∧
    ((lats = mlats ∧ lons = mlons) →
      (loadField lats lons f mlats mlons = .error .missingData ↔
        allNaN f = true)) ∧
    (∀ e, checkSetup cfg lats lons mlats mlons n = some e →
      runAll cfg m lats lons mlats mlons n dataset = .error e) ∧
    (checkSetup cfg lats lons mlats mlons n = none →
      ∃ table, runAll cfg m lats lons mlats mlons n dataset = .ok table ∧
        table.length = dataset.length) := by
  refine ⟨?_, ?_, ?_, ?_⟩
  · unfold loadField
    by_cases hc : lats = mlats ∧ lons = mlons
    · rw [if_pos hc]
      by_cases hn : allNaN f = true
      · rw [if_pos hn]
        simp [hc]
      · rw [if_neg hn]
        simp [hc]
    · rw [if_neg hc]
      simp [hc]
  · intro hc
    unfold loadField
    rw [if_pos hc]
    by_cases hn : allNaN f = true
    · rw [if_pos hn]
      simp [hn]
    · rw [if_neg hn]
      simp [hn]
  · intro e he
    unfold runAll
    rw [he]
  · intro hnone
    unfold runAll
    rw [hnone]
    refine ⟨_, rfl, ?_⟩
    have hn : 0 < n := by
      unfold checkSetup at hnone
      by_cases h1 : ¬(lats = mlats ∧ lons = mlons)
      · rw [if_pos h1] at hnone
        simp at hnone
      · rw [if_neg h1] at hnone
        by_cases h2 : keptIdx (latInSector cfg.lat0 cfg.lat1) lats = [] ∨
            keptIdx (lonInSector cfg.lon0 cfg.lon1) lons = []
        · rw [if_pos h2] at hnone
          simp at hnone
        · rw [if_neg h2] at hnone
          by_cases h3 : n = 0
          · rw [if_pos h3] at hnone
            simp at hnone
          · omega
    rw [(runParallel_perm cfg m lats lons hn dataset).length_eq,
      List.length_map]

/-! # Evaluation helpers for the concrete scenarios -/

theorem lonInSector_std {x : ℚ} (h0 : 0 ≤ x) (h1 : x < 360) :
    lonInSector 170 298 x = (decide (170 ≤ x) && decide (x ≤ 298)) := by
  have hx : normLon x = x := normLon_eq_self h0 h1
  have h170 : normLon 170 = 170 := normLon_eq_self (by norm_num) (by norm_num)
  have h298 : normLon 298 = 298 := normLon_eq_self (by norm_num) (by norm_num)
  simp only [lonInSector, hx, h170, h298]
  rw [if_pos (by norm_num)]

theorem keptIdx_lonsS : keptIdx (lonInSector 170 298) lonsS = [0, 1, 2, 3, 4] := by
  unfold lonsS keptIdx
  rw [keptIdxFrom, keptIdxFrom, keptIdxFrom, keptIdxFrom, keptIdxFrom,
    keptIdxFrom,
    lonInSector_std (by norm_num) (by norm_num),
    lonInSector_std (by norm_num) (by norm_num),
    lonInSector_std (by norm_num) (by norm_num),
    lonInSector_std (by norm_num) (by norm_num),
    lonInSector_std (by norm_num) (by norm_num)]
  norm_num

theorem keptIdx_latsS :
    keptIdx (latInSector (-80) (-60)) latsS = [0, 1, 2, 3, 4] := by
  unfold latsS keptIdx latInSector
  rw [keptIdxFrom, keptIdxFrom, keptIdxFrom, keptIdxFrom, keptIdxFrom,
    keptIdxFrom]
  norm_num

/-- Witness for C8: with the scenario configuration, matching coordinates
and one worker, setup passes and the run returns a full-length table even
though the single time step's field is all-NaN. -/
theorem error_policy_witness :
    (checkSetup cfgS latsS lonsS latsS lonsS 1 = none) ∧
      (∃ table, runAll cfgS maskS latsS lonsS latsS lonsS 1 [(0, [[none]])]
          = .ok table ∧
        table.length = [((0 : ℕ), ([[none]] : Field))].length) := by
  have hsetup : checkSetup cfgS latsS lonsS latsS lonsS 1 = none := by
    unfold checkSetup
    rw [if_neg (by simp)]
    rw [show keptIdx (latInSector cfgS.lat0 cfgS.lat1) latsS = [0, 1, 2, 3, 4]
      from keptIdx_latsS]
    rw [show keptIdx (lonInSector cfgS.lon0 cfgS.lon1) lonsS = [0, 1, 2, 3, 4]
      from keptIdx_lonsS]
    decide
  exact ⟨hsetup,
    (error_policy cfgS maskS [[none]] latsS lonsS latsS lonsS 1
      [(0, [[none]])]).2.2.2 hsetup⟩

/-! # Concrete detection scenarios (spec §8) -/

theorem windowOf_gridS :
    windowOf gridS maskS 170 298 (-80) (-60) = ⟨latsS, lonsS, valsS, maskS⟩ := by
  unfold windowOf gridS
  dsimp only
  rw [keptIdx_latsS, keptIdx_lonsS]
  decide

theorem windowOf_gridMono :
    windowOf gridMono maskS 170 298 (-80) (-60)
      = ⟨latsS, lonsS, valsMono, maskS⟩ := by
  unfold windowOf gridMono
  dsimp only
  rw [keptIdx_latsS, keptIdx_lonsS]
  decide

set_option maxRecDepth 8000 in
theorem pickMin_S :
    pickMin (eligibleCells ⟨latsS, lonsS, valsS, maskS⟩) = some (2, 2, 980) := by
  decide

set_option maxRecDepth 8000 in
theorem pickMin_Mono :
    pickMin (eligibleCells ⟨latsS, lonsS, valsMono, maskS⟩)
      = some (0, 0, 990) := by
  decide

theorem sectorMean_S :
    sectorMean (eligibleCells ⟨latsS, lonsS, valsS, maskS⟩) = 24980 / 25 := by
  norm_num [sectorMean, eligibleCells, cellsFrom, rowCellsFrom, entryCell,
    latsS, lonsS, valsS, maskS]

theorem sectorMean_Mono :
    sectorMean (eligibleCells ⟨latsS, lonsS, valsMono, maskS⟩) = 992 := by
  norm_num [sectorMean, eligibleCells, cellsFrom, rowCellsFrom, entryCell,
    latsS, lonsS, valsMono, maskS]

theorem isClosedAt_S :
    isClosedAt cfgS ⟨latsS, lonsS, valsS, maskS⟩ (-74) 204 980 = true := by
  unfold isClosedAt
  rw [show (Window.mk latsS lonsS valsS maskS).lats.indexOf? (-74 : ℚ)
      = some 2 from by decide]
  rw [show (Window.mk latsS lonsS valsS maskS).lons.indexOf? (204 : ℚ)
      = some 2 from by decide]
  dsimp only
  rw [show (980 : ℚ) + cfgS.cint = 982 from by norm_num [cfgS]]
  decide

theorem isClosedAt_Mono :
    isClosedAt cfgS ⟨latsS, lonsS, valsMono, maskS⟩ (-78) 200 990 = false := by
  unfold isClosedAt
  rw [show (Window.mk latsS lonsS valsMono maskS).lats.indexOf? (-78 : ℚ)
      = some 0 from by decide]
  rw [show (Window.mk latsS lonsS valsMono maskS).lons.indexOf? (200 : ℚ)
      = some 0 from by decide]
  dsimp only
  rw [show (990 : ℚ) + cfgS.cint = 992 from by norm_num [cfgS]]
  decide

theorem detectLow_gridS : detectLow cfgS gridS maskS = some (rowS, true) := by
  unfold detectLow
  have e1 : windowOf gridS maskS cfgS.lon0 cfgS.lon1 cfgS.lat0 cfgS.lat1
      = ⟨latsS, lonsS, valsS, maskS⟩ := windowOf_gridS
  have e2 : windowOf gridS maskS cfgS.wlon0 cfgS.wlon1 cfgS.wlat0 cfgS.wlat1
      = ⟨latsS, lonsS, valsS, maskS⟩ := windowOf_gridS
  rw [e1, e2]
  unfold detectLowIn
  rw [pickMin_S]
  dsimp only
  rw [show latsS.getD 2 0 = (-74 : ℚ) from rfl,
    show lonsS.getD 2 0 = (204 : ℚ) from rfl,
    sectorMean_S, isClosedAt_S]
  unfold rowS
  rfl

theorem detectLow_gridMono :
    detectLow cfgS gridMono maskS = some (rowM, false) := by
  unfold detectLow
  have e1 : windowOf gridMono maskS cfgS.lon0 cfgS.lon1 cfgS.lat0 cfgS.lat1
      = ⟨latsS, lonsS, valsMono, maskS⟩ := windowOf_gridMono
  have e2 : windowOf gridMono maskS cfgS.wlon0 cfgS.wlon1 cfgS.wlat0 cfgS.wlat1
      = ⟨latsS, lonsS, valsMono, maskS⟩ := windowOf_gridMono
  rw [e1, e2]
  unfold detectLowIn
  rw [pickMin_Mono]
  dsimp only
  rw [show latsS.getD 0 0 = (-78 : ℚ) from rfl,
    show lonsS.getD 0 0 = (200 : ℚ) from rfl,
    sectorMean_Mono, isClosedAt_Mono]
  norm_num [rowM, Prod.mk.injEq, ASLRow.mk.injEq]

theorem perStep_gridS :
    perStep cfgS maskS latsS lonsS (0, valsS) = ⟨0, some rowS⟩ := by
  unfold perStep
  rw [show (⟨latsS, lonsS, (0, valsS).2⟩ : Grid) = gridS from rfl,
    detectLow_gridS]
  rfl

theorem perStep_gridMono :
    perStep cfgS maskS latsS lonsS (3, valsMono) = ⟨3, none⟩ := by
  unfold perStep
  rw [show (⟨latsS, lonsS, (3, valsMono).2⟩ : Grid) = gridMono from rfl,
    detectLow_gridMono]
  rfl

/-- C1: on the synthetic 5×5 grid whose single interior cell (latitude −74,
longitude 204) holds the unique global minimum 980 surrounded by higher
values and with no NaN, detection returns exactly that cell as the
candidate with closure = true; on the field monotonically decreasing
toward the domain edge (no interior minimum) the candidate's closure test
fails — the sub-level region at any admissible contour level touches the
window boundary — so closure = false and (strict policy) no low is
reported at the edge: the record's analytic fields are missing. -/
theorem detection_scenarios :
    detectLow cfgS gridS maskS = some (rowS, true) ∧
      rowS.lat = -74 ∧ rowS.lon = 204 ∧ rowS.actCenPres = 980 ∧
      detectLow cfgS gridMono maskS = some (rowM, false) ∧
      (perStep cfgS maskS latsS lonsS (3, valsMono)).row = none :=
  ⟨detectLow_gridS, rfl, rfl, rfl, detectLow_gridMono,
    by rw [perStep_gridMono]⟩

/-- Witness for C2: the record emitted for the synthetic 5×5 grid carries
the closed low and satisfies the relative-pressure invariants. -/
theorem emitted_metrics_witness :
    ((perStep cfgS maskS latsS lonsS (0, valsS)).row = some rowS) ∧
      (rowS.relCenPres = rowS.actCenPres - rowS.sectorPres ∧
        rowS.relCenPres ≤ 0 ∧ roundTo 1 rowS.relCenPres ≤ 0) := by
  have h : (perStep cfgS maskS latsS lonsS (0, valsS)).row = some rowS := by
    rw [perStep_gridS]
  exact ⟨h, emitted_metrics cfgS maskS latsS lonsS (0, valsS) rowS h⟩

/-- Witness for C4: the middle step of `datasetW` has an all-NaN field. -/
theorem allNaN_step_contained_witness :
    ((1, ([[none]] : Field)) ∈ datasetW ∧ allNaN [[none]] = true) ∧
      (perStep cfgS [[true]] [-70] [200] (1, [[none]]) = ⟨1, none⟩ ∧
        (⟨1, none⟩ : ASLRecord) ∈ orchestrate cfgS [[true]] [-70] [200] datasetW ∧
        (orchestrate cfgS [[true]] [-70] [200] datasetW).length
          = datasetW.length ∧
        (orchestrate cfgS [[true]] [-70] [200] datasetW).Perm
          (datasetW.map (perStep cfgS [[true]] [-70] [200]))) :=
  ⟨⟨by decide, by decide⟩,
    allNaN_step_contained cfgS [[true]] [-70] [200] datasetW 1 [[none]]
      (by decide) (Or.inl (by decide))⟩

/-! # The CSV output contract (C9, C10) -/

theorem startsHash_of_mem_comment (cv sv dv : String) :
    ∀ l ∈ csvCommentLines cv sv dv, ∃ rest, l = "#" ++ rest := by
  intro l hl
  simp only [csvCommentLines, List.mem_cons, List.not_mem_nil, or_false] at hl
  rcases hl with rfl|rfl|rfl|rfl|rfl|rfl|rfl|rfl|rfl|rfl|rfl|rfl|rfl|rfl|rfl|rfl|rfl|rfl|rfl|rfl|rfl|rfl|rfl|rfl|rfl|rfl|rfl
  · exact ⟨" ", by rfl⟩
  · exact ⟨" Amundsen Sea Low (ASL) Index version 3", by rfl⟩
  · exact ⟨"   (derived from monthly ERA5 Reanalysis data)", by rfl⟩
  · exact ⟨" ", by rfl⟩
  · exact ⟨" Dr J. Scott Hosking", by rfl⟩
  · exact ⟨"   British Antarctic Survey", by rfl⟩
  · exact ⟨"   Twitter: @scotthosking", by rfl⟩
  · exact ⟨" ", by rfl⟩
  · exact ⟨" For more information see:", by rfl⟩
  · exact ⟨"   Website: https://scotthosking.com/asl_index", by rfl⟩
  · exact ⟨"   GitHub:  https://github.com/scotthosking/amundsen_sea_low_index", by rfl⟩
  · exact ⟨" ", by rfl⟩
  · exact ⟨" Column Labels:", by rfl⟩
  · exact ⟨"   time       = YYYY-MM-01 (monthly data)", by rfl⟩
  · exact ⟨"   SectorPres = Area-average sea level pressure over sector (170-298 E : 60-80 S)", by rfl⟩
  · exact ⟨"   ActCenPres = Actual central pressure of ASL", by rfl⟩
  · exact ⟨"   lon        = Longitudinal location of ASL (degrees East)", by rfl⟩
  · exact ⟨"   lat        = Latitudinal location of ASL", by rfl⟩
  · exact ⟨"   RelCenPres = Relative central pressure (ActCenPres \x27minus\x27 SectorPres)", by rfl⟩
  · exact ⟨" ", by rfl⟩
  · exact ⟨" The ASL (low pressure system) detection algorithm may be improved over time. Therefore ", by rfl⟩
  · exact ⟨" it is recommended that the version number below is noted when using these data.", by rfl⟩
  · exact ⟨"   ASLi_version_id = " ++ cv,
      by rw [← String.append_assoc,
        show ("#" ++ "   ASLi_version_id = ") = "#   ASLi_version_id = " from by decide]⟩
  · exact ⟨"   ASLi_software_version = " ++ sv,
      by rw [← String.append_assoc,
        show ("#" ++ "   ASLi_software_version = ") = "#   ASLi_software_version = " from by decide]⟩
  · exact ⟨"   data_version = " ++ dv,
      by rw [← String.append_assoc,
        show ("#" ++ "   data_version = ") = "#   data_version = " from by decide]⟩
  · exact ⟨" ", by rfl⟩
  · exact ⟨" ", by rfl⟩

/-- C9: every output table follows the column contract of the template:
the column-label row is exactly `time,lon,lat,ActCenPres,SectorPres,RelCenPres`
(in that order, as the last line of the rendered template), the table has
one printed row per record; every printed time stamp is a YYYY-MM-01 date
(day fixed to 1, month in 1..12), and each analytic field is the record's
value under the fixed reporting rounding — coordinates to 2 decimals
(denominator 100), pressures to 1 decimal (denominator 10). -/
theorem output_columns_contract (cv sv dv : String) (base : ℕ)
    (recs : List ASLRecord) :
    csvHeaderRow = String.intercalate ","
      ["time", "lon", "lat", "ActCenPres", "SectorPres", "RelCenPres"] ∧
    (renderTemplate cv sv dv).getLast? = some csvHeaderRow ∧
    (outTable base recs).length = recs.length ∧
    (∀ r ∈ recs,
      (formatRecord base r).time.day = 1 ∧
      1 ≤ (formatRecord base r).time.month ∧
      (formatRecord base r).time.month ≤ 12 ∧
      ∀ row, r.row = some row →
        (formatRecord base r).lon = some (roundTo 2 row.lon) ∧
        (formatRecord base r).lat = some (roundTo 2 row.lat) ∧
        (formatRecord base r).actCenPres = some (roundTo 1 row.actCenPres) ∧
        (formatRecord base r).sectorPres = some (roundTo 1 row.sectorPres) ∧
        (formatRecord base r).relCenPres = some (roundTo 1 row.relCenPres) ∧
        (∃ z : ℤ, roundTo 1 row.actCenPres = z / 10) ∧
        (∃ z : ℤ, roundTo 1 row.sectorPres = z / 10) ∧
        (∃ z : ℤ, roundTo 1 row.relCenPres = z / 10) ∧
        (∃ z : ℤ, roundTo 2 row.lon = z / 100) ∧
        (∃ z : ℤ, roundTo 2 row.lat = z / 100)) := by
  refine ⟨by decide, ?_, List.length_map _ _, ?_⟩
  · unfold renderTemplate
    rw [show ("" :: [csvHeaderRow]) = [""] ++ [csvHeaderRow] from rfl,
      ← List.append_assoc, List.getLast?_concat]
  · intro r hr
    refine ⟨rfl, Nat.le_add_left 1 _, ?_, ?_⟩
    · have := Nat.mod_lt r.time (y := 12) (by norm_num)
      show r.time % 12 + 1 ≤ 12
      omega
    · intro row hrow
      refine ⟨by simp [formatRecord, hrow], by simp [formatRecord, hrow],
        by simp [formatRecord, hrow], by simp [formatRecord, hrow],
        by simp [formatRecord, hrow],
        ⟨round (row.actCenPres * 10 ^ 1), by norm_num [roundTo]⟩,
        ⟨round (row.sectorPres * 10 ^ 1), by norm_num [roundTo]⟩,
        ⟨round (row.relCenPres * 10 ^ 1), by norm_num [roundTo]⟩,
        ⟨round (row.lon * 10 ^ 2), by norm_num [roundTo]⟩,
        ⟨round (row.lat * 10 ^ 2), by norm_num [roundTo]⟩⟩

/-- Witness for C9 on a one-record table holding the synthetic scenario's
detected low. -/
theorem output_columns_contract_witness :
    (formatRecord 1940 ⟨0, some rowS⟩).time.day = 1 ∧
      (formatRecord 1940 ⟨0, some rowS⟩).actCenPres
        = some (roundTo 1 rowS.actCenPres) := by
  have h := output_columns_contract "v3" "0.0.1" "era5" 1940 [⟨0, some rowS⟩]
  have h5 := h.2.2.2 ⟨0, some rowS⟩ (List.mem_cons_self _ _)
  exact ⟨h5.1, (h5.2.2.2 rowS rfl).2.2.1⟩

/-- C10: the rendered CSV begins with the fixed comment header — every
line of it starts with `#` — emitted before the column-label row; the
header documents the column semantics and fixes the detection sector as
`170-298 E : 60-80 S`, and it records the three version identifiers
(`ASLi_version_id`, `ASLi_software_version`, `data_version`), so the
sector bounds and the versions used are recoverable from any output
file. -/
theorem csv_template_header (cv sv dv : String) :
    renderTemplate cv sv dv = csvCommentLines cv sv dv ++ ["", csvHeaderRow] ∧
    (∀ l ∈ csvCommentLines cv sv dv, ∃ rest, l = "#" ++ rest) ∧
    "#   SectorPres = Area-average sea level pressure over sector (170-298 E : 60-80 S)"
      ∈ csvCommentLines cv sv dv ∧
    ("#   time       = YYYY-MM-01 (monthly data)") ∈ csvCommentLines cv sv dv ∧
    ("#   ASLi_version_id = " ++ cv) ∈ csvCommentLines cv sv dv ∧
    ("#   ASLi_software_version = " ++ sv) ∈ csvCommentLines cv sv dv ∧
    ("#   data_version = " ++ dv) ∈ csvCommentLines cv sv dv := by
  refine ⟨rfl, startsHash_of_mem_comment cv sv dv, ?_, ?_, ?_, ?_, ?_⟩ <;>
    simp [csvCommentLines]

/-- Witness for C10 with concrete version strings. -/
theorem csv_template_header_witness :
    ("#   ASLi_version_id = v3") ∈ csvCommentLines "v3" "0.0.1" "era5" ∧
      (∃ rest, "# Column Labels:" = "#" ++ rest) := by
  have h := csv_template_header "v3" "0.0.1" "era5"
  refine ⟨?_, (h.2.1) "# Column Labels:" (by simp [csvCommentLines])⟩
  have h2 := h.2.2.2.2.1
  rw [show "#   ASLi_version_id = " ++ "v3" = "#   ASLi_version_id = v3"
    from rfl] at h2
  exact h2

end ASLI
